import Mathlib

/-!
Shallow embedding of the redash query-runner core (jql.py, mongodb.py,
url.py, uptycs.py) and proofs about its result-normalization, pagination
and error-handling behaviour.

Conventions of the embedding:
* Python dicts that are only iterated / looked up are modelled as ordered
  association lists `List (String × α)`; assignment `d[k] = v` is `aset`
  (update in place if the key exists, else append), matching Python's
  insertion-order semantics.
* Python scalars are modelled by the closed type `BVal`; `float` values
  are carried opaquely (no claim computes with them), `datetime` values
  are opaque tokens recording how they were produced.
* Fallible Python code returns `Except PyExc _`; `PyExc.valueError` is
  the only exception class the mongodb runner catches.
-/

namespace Redash

/-- Column type tags (TYPE_STRING, TYPE_INTEGER, TYPE_FLOAT, TYPE_BOOLEAN,
TYPE_DATETIME from redash.query_runner). -/
inductive RType where
  | string
  | integer
  | float
  | boolean
  | datetime
  deriving DecidableEq, Repr

/-- Opaque model of datetime objects: `parsed s` is `dateutil.parser.parse`
applied to the string `s` (yearfirst), `human s` is `parse_human_time s`.
No claim compares instants, so the producing string is kept as the token. -/
inductive DT where
  | parsed (s : String)
  | human (s : String)
  deriving DecidableEq, Repr

/-- Python/BSON values as they flow through the runners: JSON scalars,
datetimes, ObjectIds, nested documents and arrays. `float` carries its
literal text opaquely. -/
inductive BVal where
  | str (s : String)
  | int (n : Int)
  | float (lit : String)
  | bool (b : Bool)
  | datetime (d : DT)
  | oid (v : BVal)
  | doc (fields : List (String × BVal))
  | arr (items : List BVal)
  | null

/-- Python exceptions: `valueError` is what `json_loads` raises on invalid
JSON (the only class mongodb's run_query catches); `exception m` is a plain
`Exception(m)`; `typeError` models `",".join` applied to non-strings. -/
inductive PyExc where
  | valueError
  | exception (msg : String)
  | typeError
  deriving DecidableEq, Repr

/-- First-match lookup in an association list (Python `d[k]` / `k in d`). -/
def alookup (l : List (String × α)) (k : String) : Option α :=
  match l with
  | [] => none
  | (k₂, v) :: rest => if k₂ = k then some v else alookup rest k

/-- Python dict assignment `d[k] = v`: overwrite in place when the key is
present, append otherwise. -/
def aset (l : List (String × α)) (k : String) (v : α) : List (String × α) :=
  match l with
  | [] => [(k, v)]
  | (k₂, v₂) :: rest =>
      if k₂ = k then (k₂, v) :: rest else (k₂, v₂) :: aset rest k v

/-- Python `d.pop(k, default)`: the removed list together with the value. -/
def apop (l : List (String × α)) (k : String) : List (String × α) × Option α :=
  match l with
  | [] => ([], none)
  | (k₂, v) :: rest =>
      if k₂ = k then (rest, some v)
      else
        let (rest₂, r) := apop rest k
        ((k₂, v) :: rest₂, r)

/-! ## jql.py: ResultSet -/

/-- A result column record as stored in `ResultSet.columns` and built by
mongodb's `parse_results` (`{"name": …, "friendly_name": …, "type": …}`). -/
structure RColumn where
  name : String
  friendly_name : String
  type : RType
  deriving DecidableEq, Repr

/-- A result row: ordered mapping column name → value, sparse. -/
abbrev RRow := List (String × BVal)

/-- jql.py `ResultSet`: an OrderedDict of columns (modelled as the list of
its values, names unique by construction) and a list of rows. -/
structure ResultSet where
  columns : List RColumn
  rows : List RRow

/-- The empty ResultSet (`ResultSet.__init__`). -/
def ResultSet.empty : ResultSet := ⟨[], []⟩

/-- `ResultSet.add_column(column, column_type=TYPE_STRING)`: insert a new
column record unless a column of that name is already present. -/
def ResultSet.add_column (rs : ResultSet) (column : String)
    (column_type : RType := RType.string) : ResultSet :=
  if rs.columns.any (fun c => c.name = column) then rs
  else { rs with columns := rs.columns ++ [⟨column, column, column_type⟩] }

/-- `ResultSet.add_row(row)`: add a (default-typed) column for every key of
the row, then append the row. -/
def ResultSet.add_row (rs : ResultSet) (row : RRow) : ResultSet :=
  let rs₂ := row.foldl (fun acc kv => acc.add_column kv.1) rs
  { rs₂ with rows := rs₂.rows ++ [row] }

/-- `ResultSet.merge(set)`: `self.rows = self.rows + set.rows` — the columns
dict is left untouched. -/
def ResultSet.merge (rs other : ResultSet) : ResultSet :=
  { rs with rows := rs.rows ++ other.rows }

/-- `ResultSet.to_json()`: the serialized payload, kept structured
(`json_dumps` is a faithful injective rendering of this data). -/
structure Payload where
  rows : List RRow
  columns : List RColumn

def ResultSet.to_json (rs : ResultSet) : Payload :=
  ⟨rs.rows, rs.columns⟩

/-! ## jql.py: FieldMapping -/

/-- One entry of `FieldMapping.mapping`. -/
structure FMRule where
  field_name : String
  member_name : Option String
  output_field_name : String
  deriving DecidableEq, Repr

structure FieldMapping where
  mapping : List FMRule
  deriving DecidableEq, Repr

/-- Python `\w`: word character. -/
def isWordChar (c : Char) : Bool := c.isAlphanum || c = '_'

/-- Model of `re.search("(\w+)\.(\w+)", field_name)`: the leftmost match is
anchored at the first dot with a word character on both sides; group 1 is the
maximal word-character run ending just before that dot, group 2 the maximal
run starting just after it. -/
def reSearchMember (s : String) : Option (String × String) :=
  go [] s.data
where
  go (rev : List Char) : List Char → Option (String × String)
  | [] => none
  | c :: rest =>
    if c = '.' then
      match rev, rest with
      | p :: _, n :: _ =>
        if isWordChar p && isWordChar n then
          some (⟨(rev.takeWhile isWordChar).reverse⟩, ⟨rest.takeWhile isWordChar⟩)
        else go ('.' :: rev) rest
      | _, _ => go ('.' :: rev) rest
    else go (c :: rev) rest

/-- `FieldMapping.__init__(query_field_mapping)` (output field names are
taken as strings; the mapping dict's values are strings in every use). -/
def mkFieldMapping (query_field_mapping : List (String × String)) : FieldMapping :=
  ⟨query_field_mapping.map (fun kv =>
    match reSearchMember kv.1 with
    | some (f, m) => ⟨f, some m, kv.2⟩
    | none => ⟨kv.1, none, kv.2⟩)⟩

/-- `FieldMapping.get_output_field_name`: first rule for this field whose
member name is falsy (None or empty), else the field name itself. -/
def FieldMapping.get_output_field_name (fm : FieldMapping) (field_name : String) : String :=
  match fm.mapping.find? (fun item =>
      item.field_name == field_name &&
      (item.member_name.getD "") == "") with
  | some item => item.output_field_name
  | none => field_name

/-- `FieldMapping.get_dict_members`: member names (truthy ones) of the rules
declared for this field, in rule order. -/
def FieldMapping.get_dict_members (fm : FieldMapping) (field_name : String) : List String :=
  fm.mapping.filterMap (fun item =>
    match item.member_name with
    | some m => if item.field_name == field_name && m != "" then some m else none
    | none => none)

/-- `FieldMapping.get_dict_output_field_name`: output name of the rule for
this (field, member) pair, None when absent. -/
def FieldMapping.get_dict_output_field_name (fm : FieldMapping)
    (field_name member_name : String) : Option String :=
  (fm.mapping.find? (fun item =>
      item.field_name == field_name && item.member_name == some member_name)).map
    (fun item => item.output_field_name)

/-! ## jql.py: parse_issue / parse_issues / parse_count -/

/-- A JIRA issue as consumed by `parse_issue`: its `key` and its `fields`
dict. -/
structure Issue where
  key : String
  fields : List (String × BVal)

/-- Python `",".join(vals)`: TypeError unless every element is a string. -/
def joinComma (vals : List BVal) : Except PyExc String :=
  match vals.mapM (fun v => match v with | .str s => some s | _ => none) with
  | some strs => .ok (String.intercalate "," strs)
  | none => .error .typeError

/-- The `else` branch of `parse_issue`'s dict case: the special mapping
rules kept for backwards compatibility, applied in source order —
`<out>_key` from a `key` member, `<out>_name` from a `name` member, `<out>`
from the member named like the outer field, then `<out>` overwritten from a
`watchCount` member. -/
def legacy_dict_fallback (output_name k : String) (d : List (String × BVal))
    (result : RRow) : RRow :=
  let r := result
  let r := match alookup d "key" with
    | some kv => aset r (output_name ++ "_key") kv
    | none => r
  let r := match alookup d "name" with
    | some nv => aset r (output_name ++ "_name") nv
    | none => r
  let r := match alookup d k with
    | some sv => aset r output_name sv
    | none => r
  match alookup d "watchCount" with
  | some wv => aset r output_name wv
  | none => r

/-- The body of `parse_issue`'s loop for one `(k, v)` item of
`issue["fields"]`, threading the `result` dict. -/
def parse_issue_field (fm : FieldMapping) (result : RRow) (k : String)
    (v : BVal) : Except PyExc RRow :=
  let output_name := fm.get_output_field_name k
  let member_names := fm.get_dict_members k
  match v with
  | .doc d =>
      if member_names.length > 0 then
        -- member-mapped dict: one output per declared member present on v
        .ok (member_names.foldl (fun r m =>
          match alookup d m with
          | some mv =>
              -- get_dict_output_field_name is some here (m comes from the
              -- mapping itself); "None" mirrors Python's None key, unreachable
              aset r ((fm.get_dict_output_field_name k m).getD "None") mv
          | none => r) result)
      else
        .ok (legacy_dict_fallback output_name k d result)
  | .arr items =>
      if member_names.length > 0 then
        member_names.foldlM (fun r m =>
          let listValues := items.filterMap (fun li => match li with
            | .doc d => alookup d m
            | _ => none)
          if listValues.isEmpty then .ok r
          else do
            let s ← joinComma listValues
            .ok (aset r ((fm.get_dict_output_field_name k m).getD "None") (BVal.str s)))
          result
      else
        let listValues := items.filter (fun li => match li with
          | .doc _ => false
          | _ => true)
        if listValues.isEmpty then .ok result
        else do
          let s ← joinComma listValues
          .ok (aset result output_name (BVal.str s))
  | _ => .ok (aset result output_name v)

/-- `parse_issue(issue, field_mapping)`. -/
def parse_issue (issue : Issue) (fm : FieldMapping) : Except PyExc RRow :=
  issue.fields.foldlM (fun r kv => parse_issue_field fm r kv.1 kv.2)
    [("key", BVal.str issue.key)]

/-- One page of the JIRA search response, as read by `run_query`
(`data["startAt"]`, `data["maxResults"]`, `data["total"]`,
`data["issues"]`). -/
structure JqlData where
  startAt : Int
  maxResults : Int
  total : Int
  issues : List Issue

/-- `parse_issues(data, field_mapping)`. -/
def parse_issues (data : JqlData) (fm : FieldMapping) : Except PyExc ResultSet :=
  data.issues.foldlM (fun rs issue => do
    let row ← parse_issue issue fm
    pure (rs.add_row row)) ResultSet.empty

/-- `parse_count(data)`: a ResultSet with the single row
`{"count": data["total"]}` (its column gets the default TYPE_STRING). -/
def parse_count (data : JqlData) : ResultSet :=
  ResultSet.empty.add_row [("count", BVal.int data.total)]

/-! ## jql.py: JiraJQL.run_query

The HTTP collaborator `BaseHTTPQueryRunner.get_response` lives in
`redash/query_runner/__init__.py`, which is not part of this source set.
Modelled from the spec: every execution call returns `(payload, error)`
with exactly one of the two non-null, so the collaborator is passed in as
a function to `Except String JqlData` (error string, or the decoded page
with its echoed `startAt`/`maxResults`/`total`). A request is identified
by the `params` dict the runner sends. -/

/-- A backend request: the `params` dict passed to `get_response`. -/
abbrev Req := List (String × BVal)

/-- Outcome of a `run_query` call. -/
inductive JqlOut where
  /-- the function returned the pair `(payload, error)`. -/
  | ret (payload : Option Payload) (error : Option String)
  /-- an uncaught Python exception escaped `run_query`. -/
  | exc (e : PyExc)
  /-- artefact of the embedding: the fuel bound was reached before the
  `while` loop finished (the Python loop has no such bound). -/
  | fuel

/-- Python `query_type == "count"`. -/
def isCountType : BVal → Bool
  | .str s => s == "count"
  | _ => false

/-- The `while data["total"] > index` loop of `JiraJQL.run_query`, returning
the outcome together with the list of all requests issued so far. -/
def jql_loop (getResp : Req → Except String JqlData) (fm : FieldMapping) :
    Nat → Req → JqlData → Int → ResultSet → List Req → JqlOut × List Req
  | 0, _, _, _, _, reqs => (.fuel, reqs)
  | fuel + 1, query, data, index, results, reqs =>
    if data.total > index then
      let query := aset query "startAt" (BVal.int index)
      match getResp query with
      | .error e => (.ret none (some e), reqs ++ [query])
      | .ok data₂ =>
        let index₂ := data₂.startAt + data₂.maxResults
        match parse_issues data₂ fm with
        | .error ex => (.exc ex, reqs ++ [query])
        | .ok addl =>
            jql_loop getResp fm fuel query data₂ index₂ (results.merge addl)
              (reqs ++ [query])
    else
      (.ret (some results.to_json) none, reqs)

/-- `JiraJQL.run_query(query, user)`. The raw input is the already-decoded
JSON object (`json_loads(query)`); `fieldMapping` values must be strings
(the only shape the mapping is used with), any other shape is reported as
the Python error it would eventually raise. -/
def jql_run (getResp : Req → Except String JqlData) (fuel : Nat)
    (rawQuery : Req) : JqlOut × List Req :=
  let (query, qt) := apop rawQuery "queryType"
  let query_type := qt.getD (BVal.str "select")
  let (query, fmv) := apop query "fieldMapping"
  let fmFields : Option (List (String × String)) :=
    match fmv with
    | none => some []
    | some (.doc d) =>
        d.mapM (fun kv => match kv.2 with
          | .str s => some (kv.1, s)
          | _ => none)
    | some _ => none
  match fmFields with
  | none => (.exc .typeError, [])
  | some fields =>
    let fm := mkFieldMapping fields
    if isCountType query_type then
      let query := aset query "maxResults" (BVal.int 1)
      let query := aset query "fields" (BVal.str "")
      match getResp query with
      | .error e => (.ret none (some e), [query])
      | .ok data => (.ret (some (parse_count data).to_json) none, [query])
    else
      let query :=
        aset query "maxResults" ((alookup query "maxResults").getD (BVal.int 1000))
      match getResp query with
      | .error e => (.ret none (some e), [query])
      | .ok data =>
        match parse_issues data fm with
        | .error ex => (.exc ex, [query])
        | .ok results =>
          let index := data.startAt + data.maxResults
          jql_loop getResp fm fuel query data index results [query]

/-! ## mongodb.py: query parsing (parse_query_json and its hooks) -/

/-- Boolean equality on `BVal` (used for Python `in` on containers). -/
def BVal.beq : BVal → BVal → Bool
  | .str a, .str b => a == b
  | .int a, .int b => a == b
  | .float a, .float b => a == b
  | .bool a, .bool b => a == b
  | .datetime a, .datetime b => a == b
  | .oid a, .oid b => BVal.beq a b
  | .doc a, .doc b => beqFields a b
  | .arr a, .arr b => beqList a b
  | .null, .null => true
  | _, _ => false
where
  beqFields : List (String × BVal) → List (String × BVal) → Bool
    | [], [] => true
    | (k₁, v₁) :: r₁, (k₂, v₂) :: r₂ => k₁ == k₂ && BVal.beq v₁ v₂ && beqFields r₁ r₂
    | _, _ => false
  beqList : List BVal → List BVal → Bool
    | [], [] => true
    | v₁ :: r₁, v₂ :: r₂ => BVal.beq v₁ v₂ && beqList r₁ r₂
    | _, _ => false

/-- Models the bson library collaborator `bson.json_util.object_hook` on the
shapes this code sends it: a dict carrying an `$oid` key decodes to an
ObjectId of that value; any other dict is returned unchanged (no other
extended-JSON marker occurs in these flows). -/
def bson_object_hook (dct : List (String × BVal)) : BVal :=
  match alookup dct "$oid" with
  | some v => .oid v
  | none => .doc dct

/-- `parse_oids(oids)`: a plain `Exception` when the value is not an array,
else each element decoded through `bson_object_hook({"$oid": oid})`. -/
def parse_oids : BVal → Except PyExc (List BVal)
  | .arr oids => .ok (oids.map (fun oid => bson_object_hook [("$oid", oid)]))
  | _ => .error (.exception "$oids takes an array as input.")

/-- The lowercase pattern prefix of `date_regex`. -/
def isoPrefixChars : List Char := "isodate(\"".data

/-- Scan for the first (case-insensitive) occurrence of `ISODate("`, return
the remaining characters. -/
def findIsoStart : List Char → Option (List Char)
  | [] => none
  | c :: rest =>
      if ((c :: rest).take 9).map Char.toLower == isoPrefixChars then
        some ((c :: rest).drop 9)
      else findIsoStart rest

/-- On the reversed tail: drop through the last occurrence of `")` (seen
reversed as `)` then `"`), returning the group characters in order. -/
def dropLastCloseRev : List Char → Option (List Char)
  | ')' :: '"' :: rest => some rest.reverse
  | _ :: rest => dropLastCloseRev rest
  | [] => none

/-- Model of `date_regex.findall(s)[0]` for
`re.compile('ISODate\("(.*)"\)', re.IGNORECASE)`: the greedy group of the
leftmost match runs from just after the first `ISODate("` to just before the
last `")`. -/
def isoDateMatch (s : String) : Option String :=
  match findIsoStart s.data with
  | none => none
  | some tail =>
      match dropLastCloseRev tail.reverse with
      | some grp => some ⟨grp⟩
      | none => none

/-- The string-rewriting pass of the object hook: a string value matching
`date_regex` becomes `parse(m[0], yearfirst=True)`. -/
def isoRewrite : BVal → BVal
  | .str s =>
      match isoDateMatch s with
      | some m => .datetime (.parsed m)
      | none => .str s
  | v => v

/-- mongodb.py's object hook (source name `datetime_parser`): rewrite
ISODate string values in place, then dispatch on the `$humanTime` and
`$oids` markers, falling back to `bson_object_hook`. `parse_human_time`
expects a string argument. -/
def datetime_hook (dct : List (String × BVal)) : Except PyExc BVal :=
  let dct := dct.map (fun kv => (kv.1, isoRewrite kv.2))
  match alookup dct "$humanTime" with
  | some (.str s) => .ok (.datetime (.human s))
  | some _ => .error .typeError
  | none =>
      match alookup dct "$oids" with
      | some ov => (parse_oids ov).map BVal.arr
      | none => .ok (bson_object_hook dct)

mutual
/-- `json.loads`' innermost-first application of the object hook over a
parsed JSON tree. -/
def applyHook : BVal → Except PyExc BVal
  | .doc fields => do
      let fs ← applyHookFields fields
      datetime_hook fs
  | .arr items => do
      let xs ← applyHookList items
      pure (.arr xs)
  | v => .ok v

def applyHookFields : List (String × BVal) → Except PyExc (List (String × BVal))
  | [] => .ok []
  | (k, v) :: rest => do
      let v₂ ← applyHook v
      let rest₂ ← applyHookFields rest
      pure ((k, v₂) :: rest₂)

def applyHookList : List BVal → Except PyExc (List BVal)
  | [] => .ok []
  | v :: rest => do
      let v₂ ← applyHook v
      let rest₂ ← applyHookList rest
      pure (v₂ :: rest₂)
end

/-- `parse_query_json(query)`: `json_loads(query, object_hook=…)`. The raw
query text is modelled as already tokenized: `none` stands for syntactically
invalid JSON (a ValueError from `json_loads`), `some j` for the parsed tree
before hook application. -/
def parse_query_json (raw : Option BVal) : Except PyExc BVal :=
  match raw with
  | none => .error .valueError
  | some j => applyHook j

/-- Python `"collection" in query_data` for an arbitrary decoded value:
key membership for dicts, element membership for lists, substring test for
strings, a TypeError otherwise. -/
def pyContainsCollection : BVal → Except PyExc Bool
  | .doc fields => .ok (alookup fields "collection").isSome
  | .arr items => .ok (items.any (fun v => BVal.beq v (.str "collection")))
  | .str s => .ok ((s.splitOn "collection").length > 1)
  | _ => .error .typeError

/-- The parse-and-validate prefix of `MongoDB.run_query` (lines 261–269):
`try: parse_query_json(query) except ValueError: return error`, then the
`collection` presence check. `.ok (.error msg)` models `return None, msg`;
`.ok (.ok qd)` means execution proceeds with `query_data = qd`; `.error e`
is an uncaught Python exception escaping `run_query` (only `ValueError` is
caught there). -/
def mongo_compile (raw : Option BVal) : Except PyExc (Except String BVal) :=
  match parse_query_json raw with
  | .error .valueError =>
      .ok (.error "Invalid query format. The query is not a valid JSON.")
  | .error e => .error e
  | .ok query_data => do
      let has ← pyContainsCollection query_data
      if has then .ok (.ok query_data)
      else .ok (.error "'collection' must have a value to run a query")

/-! ## mongodb.py: parse_results and result assembly -/

/-- `TYPES_MAP.get(type(x), TYPE_STRING)`. -/
def typeTag : BVal → RType
  | .str _ => .string
  | .int _ => .integer
  | .float _ => .float
  | .bool _ => .boolean
  | .datetime _ => .datetime
  | _ => .string

/-- `_get_column_by_name(columns, column_name)` (the `"name" in c` guard is
always true for the records this code builds). -/
def get_column_by_name (columns : List RColumn) (column_name : String) :
    Option RColumn :=
  columns.find? (fun c => c.name == column_name)

/-- A raw MongoDB document. -/
abbrev MDoc := List (String × BVal)

/-- The body of `parse_results`' outer loop for one document: build its
`parsed_row` and extend `columns`. One-level-nested dicts flatten to
`"<outer>.<inner>"`; new columns get the `TYPES_MAP` type of the value at
creation. -/
def parse_results_step (columns : List RColumn) (row : MDoc) :
    RRow × List RColumn :=
  row.foldl
    (fun acc kv =>
      match kv.2 with
      | .doc inner =>
          inner.foldl
            (fun acc₂ ikv =>
              let column_name := kv.1 ++ "." ++ ikv.1
              let cols :=
                if (get_column_by_name acc₂.2 column_name).isSome then acc₂.2
                else acc₂.2 ++ [⟨column_name, column_name, typeTag ikv.2⟩]
              (aset acc₂.1 column_name ikv.2, cols))
            acc
      | v =>
          let cols :=
            if (get_column_by_name acc.2 kv.1).isSome then acc.2
            else acc.2 ++ [⟨kv.1, kv.1, typeTag v⟩]
          (aset acc.1 kv.1 v, cols))
    ([], columns)

/-- `parse_results(results)`: rows and accumulated columns. -/
def parse_results (results : List MDoc) : List RRow × List RColumn :=
  results.foldl
    (fun acc row =>
      let (pr, cols) := parse_results_step acc.2 row
      (acc.1 ++ [pr], cols))
    ([], [])

/-- Whether a value is a Python list. -/
def BVal.isArr : BVal → Bool
  | .arr _ => true
  | _ => false

/-- The flattened `(column name, value)` pairs `parse_results` derives from
one document, in processing order: inner keys of a one-level-nested dict
become `"<outer>.<inner>"`, every other value keeps its own key. -/
def flatDoc (row : MDoc) : List (String × BVal) :=
  row.flatMap (fun kv =>
    match kv.2 with
    | .doc inner => inner.map (fun ikv => (kv.1 ++ "." ++ ikv.1, ikv.2))
    | v => [(kv.1, v)])

/-- The column accumulation of `parse_results` viewed over flattened pairs:
append a column (typed from the value at hand) for each name not yet
present. -/
def colsAfter (columns : List RColumn) (pairs : List (String × BVal)) :
    List RColumn :=
  pairs.foldl
    (fun cols nv =>
      if (get_column_by_name cols nv.1).isSome then cols
      else cols ++ [⟨nv.1, nv.1, typeTag nv.2⟩])
    columns

/-- The column state of `parse_results` after a list of documents. -/
def colsAfterDocs (columns : List RColumn) (docs : List MDoc) : List RColumn :=
  docs.foldl (fun cols row => (parse_results_step cols row).2) columns

/-- `sorted(f, key=f.get)`: the projection's keys, stably sorted by their
priority values (Python's sort is stable, as is `List.mergeSort`). -/
def sortFieldsByPriority (f : List (String × Int)) : List String :=
  (f.mergeSort (fun a b => decide (a.2 ≤ b.2))).map (fun kv => kv.1)

/-- Lines 323–329 of `MongoDB.run_query`: rebuild the column list from the
projection's priority order, keeping only columns found by name. -/
def reorder_by_fields (f : List (String × Int)) (columns : List RColumn) :
    List RColumn :=
  (sortFieldsByPriority f).foldl
    (fun acc k =>
      match get_column_by_name columns k with
      | some c => acc ++ [c]
      | none => acc)
    []

/-- Lines 331–333: `sorted(columns, key=lambda col: col["name"],
reverse=reverse)` — stable, so equal names keep their original order,
matching Python `sorted` with `reverse=True`. -/
def sort_columns (reverse : Bool) (columns : List RColumn) : List RColumn :=
  columns.mergeSort (fun a b =>
    if reverse then decide (b.name ≤ a.name) else decide (a.name ≤ b.name))

/-- The parts of `query_data` that lines 289–335 of `MongoDB.run_query`
read when assembling the output. -/
structure MQuery where
  /-- whether the key `"count"` is present in `query_data`. -/
  count : Bool
  /-- `f`: the projection dict, `none` when the key is absent. -/
  fields : Option (List (String × Int))
  /-- `query_data.get("sortColumns")`. -/
  sortColumns : Option String

/-- Lines 289–335 of `MongoDB.run_query`: build `{"columns", "rows"}` from
the fetched cursor. The backend call is abstracted: `countValue` is the
integer `cursor.count()` returned on the find path, `docs` the fetched
documents otherwise. -/
def mongo_build_data (qd : MQuery) (countValue : Int) (docs : List MDoc) :
    List RColumn × List RRow :=
  let st :=
    if qd.count then
      ([[("count", BVal.int countValue)]],
        [(⟨"count", "count", RType.integer⟩ : RColumn)])
    else parse_results docs
  let columns := st.2
  let rows := st.1
  let columns :=
    match qd.fields with
    | some f => if f.isEmpty then columns else reorder_by_fields f columns
    | none => columns
  let columns :=
    match qd.sortColumns with
    | some sc => if sc != "" then sort_columns (sc == "desc") columns else columns
    | none => columns
  (columns, rows)

/-! ## url.py -/

/-- An HTTP response as `Url.run_query` uses it: only `content` is read. -/
structure HttpContent where
  content : String

/-- `Url.run_query(query, user)`. The HTTP collaborator
`BaseHTTPQueryRunner.get_response` is not in this source set; modelled from
the spec: it returns `(response, error)` with exactly one of the two
non-null, passed in here as a function to `Except String HttpContent`. -/
def url_run_query (getResp : String → Except String HttpContent)
    (baseUrl : Option String) (query : String) :
    Option String × Option String :=
  let query := query.trim
  let hasScheme := (query.splitOn "://").length > 1
  let reject :=
    match baseUrl with
    | some b => b != "" && hasScheme
    | none => false
  if reject then
    (none, some ("Accepting only relative URLs to '" ++ baseUrl.getD "" ++ "'"))
  else
    let base := baseUrl.getD ""
    let url := base ++ query
    match getResp url with
    | .error e => (none, some e)
    | .ok resp =>
        let json_data := resp.content.trim
        if json_data != "" then (some json_data, none)
        else (none, some ("Got empty response from '" ++ url ++ "'."))

/-! ## uptycs.py -/

/-- The decoded JSON body of an Uptycs API response, as read by
`transformed_to_redash_json` and `api_call`: optional `columns` (each
contributing its `name`), optional `items`, and the optional
`error.message` (brief, detail) pair. -/
structure UpBody where
  columns : Option (List String)
  items : Option (List RRow)
  errorMessage : Option (String × String)

/-- `Uptycs.transformed_to_redash_json(data)`: every column is re-typed as
string. -/
def transformed_to_redash_json (data : UpBody) : List RColumn × List RRow :=
  let cols :=
    match data.columns with
    | some names => names.map (fun n => (⟨n, n, RType.string⟩ : RColumn))
    | none => []
  (cols, data.items.getD [])

/-- What `requests.post` yields to `api_call`: a status code and the
(pre-decoded) JSON body. -/
structure UpResp where
  status_code : Nat
  body : UpBody

/-- The payload slot of `Uptycs.api_call`: the literal empty dict `{}` on
the non-200 path, or the transformed `{columns, rows}` data. -/
inductive UpPayload where
  | emptyDict
  | payload (columns : List RColumn) (rows : List RRow)

/-- `Uptycs.api_call(sql)` with `requests.post` passed in as a function of
the sql text. -/
def uptycs_api_call (post : String → UpResp) (sql : String) :
    UpPayload × Option String :=
  let response := post sql
  if response.status_code == 200 then
    let response_output := response.body
    let json_data := transformed_to_redash_json response_output
    let error :=
      match response_output.errorMessage with
      | some be => some (be.1 ++ "\n" ++ be.2)
      | none => none
    (.payload json_data.1 json_data.2, error)
  else
    (.emptyDict,
      some ("status_code " ++ toString response.status_code ++ "\nfailed to connect"))

/-- `Uptycs.run_query(query, user)`: serializes whatever payload `api_call`
produced (`json_dumps(data)` — never null) next to `api_call`'s error. -/
def uptycs_run_query (post : String → UpResp) (query : String) :
    Option UpPayload × Option String :=
  let r := uptycs_api_call post query
  (some r.1, r.2)

/-! ## Concrete scenarios and small helpers used by the claims -/

/-- The merged row count of a successful `(payload, None)` return, `none`
for every other outcome. -/
def JqlOut.okRowCount : JqlOut → Option Nat
  | .ret (some pl) none => some pl.rows.length
  | _ => none

/-- Pagination scenario: a backend reporting `total = 250` with page size
100 (it caps the requested `maxResults` at 100), echoing the requested
offset in each page. -/
def c6Backend : Req → Except String JqlData := fun r =>
  match alookup r "startAt" with
  | none => .ok ⟨0, 100, 250, List.replicate 100 ⟨"K", []⟩⟩
  | some (BVal.int n) =>
      if n = 100 then .ok ⟨100, 100, 250, List.replicate 100 ⟨"K", []⟩⟩
      else if n = 200 then .ok ⟨200, 100, 250, List.replicate 50 ⟨"K", []⟩⟩
      else .error "unexpected offset"
  | some _ => .error "unexpected offset"

/-- The user's raw query for the pagination scenario. -/
def c6Query : Req := [("jql", BVal.str "project = DEMO")]

/-- The first request the runner issues for `c6Query` (default
`maxResults` of 1000 filled in). -/
def c6Req1 : Req := [("jql", BVal.str "project = DEMO"), ("maxResults", BVal.int 1000)]

/-- Error-mid-pagination scenario: first page fine, every follow-up
request fails at the transport. -/
def c5Backend : Req → Except String JqlData := fun r =>
  match alookup r "startAt" with
  | none => .ok ⟨0, 100, 250, [⟨"K1", []⟩]⟩
  | some _ => .error "connection reset"

/-! ## Claims -/

/-- C1 (counterexample): `r.merge(s)` does not union columns. With
`r = {column "a"}` and `s = {column "b"}`, after the merge `r`'s columns
are still just `["a"]`, not the order-preserving union `["a", "b"]` the
claim requires. -/
theorem merge_drops_new_columns_cex :
    (((ResultSet.empty.add_row [("a", BVal.int 1)]).merge
        (ResultSet.empty.add_row [("b", BVal.int 2)])).columns.map RColumn.name
      = ["a"])
    ∧ ["a"] ≠ ["a", "b"] :=
  ⟨rfl, by decide⟩

/-- C1 (amended): after `r.merge(s)` the rows of `r` are the rows of `r`
followed by the rows of `s`, and the column dict of `r` is left completely
unchanged — columns of `s` not already in `r` are dropped, not appended
(so the column set across merges is trivially non-decreasing). -/
theorem merge_concatenates_rows_keeps_columns (r s : ResultSet) :
    (r.merge s).rows = r.rows ++ s.rows ∧ (r.merge s).columns = r.columns :=
  ⟨rfl, rfl⟩

/-- C2 (counterexample): on the JQL backend `parse_count` builds the
`count` column through `add_row`/`add_column` with the default
TYPE_STRING, so the column's type tag is string, not the integer tag the
claim requires. -/
theorem jql_count_column_type_cex :
    (parse_count ⟨0, 1, 7, []⟩).columns = [⟨"count", "count", RType.string⟩]
    ∧ RType.string ≠ RType.integer :=
  ⟨rfl, by decide⟩

/-- C2 (amended): a count-only query yields exactly one row holding the
count and exactly one column named `count`; on the MongoDB backend (absent
a `fields` projection, which would filter the count column away) the
column's type tag is integer, while the JQL backend registers the column
with the default string type tag. -/
theorem count_query_shape :
    (∀ (sc : Option String) (cv : Int) (docs : List MDoc),
      mongo_build_data ⟨true, none, sc⟩ cv docs
        = ([⟨"count", "count", RType.integer⟩], [[("count", BVal.int cv)]]))
    ∧ (∀ data : JqlData,
      parse_count data
        = ⟨[⟨"count", "count", RType.string⟩], [[("count", BVal.int data.total)]]⟩) := by
  constructor
  · intro sc cv docs
    cases sc with
    | none => rfl
    | some s =>
        by_cases h : s = ""
        · subst h; rfl
        · simp [mongo_build_data, sort_columns, h, List.mergeSort_singleton]
  · intro data; rfl

/-- Invariant of the pagination loop: whenever it returns a `(payload,
error)` pair, the two slots are mutually exclusive, and a non-null error is
exactly the error of the last request issued. -/
theorem jql_loop_ret_inv (getResp : Req → Except String JqlData) (fm : FieldMapping) :
    ∀ (fuel : Nat) (query : Req) (data : JqlData) (index : Int)
      (results : ResultSet) (reqs reqs₂ : List Req) (p : Option Payload)
      (e : Option String),
      jql_loop getResp fm fuel query data index results reqs = (.ret p e, reqs₂) →
      (p.isSome ↔ e.isNone) ∧
        (∀ s, e = some s →
          p = none ∧ ∃ r, reqs₂.getLast? = some r ∧ getResp r = .error s) := by
  intro fuel
  induction fuel with
  | zero =>
      intro query data index results reqs reqs₂ p e h
      simp [jql_loop] at h
  | succ n ih =>
      intro query data index results reqs reqs₂ p e h
      simp only [jql_loop] at h
      repeat' split at h
      all_goals first
        | exact ih _ _ _ _ _ _ _ _ h
        | (rw [Prod.mk.injEq] at h
           obtain ⟨h₁, h₂⟩ := h
           injection h₁
           done)
        | (rw [Prod.mk.injEq] at h
           obtain ⟨h₁, h₂⟩ := h
           injection h₁ with hp he
           subst hp
           subst he
           subst h₂
           refine ⟨by simp, ?_⟩
           intro s hs
           first
             | exact Option.noConfusion hs
             | (injection hs with hss
                subst hss
                exact ⟨rfl, ⟨_, List.getLast?_concat _, by assumption⟩⟩))

/-- Invariant of `JiraJQL.run_query`: whenever it returns a `(payload,
error)` pair (rather than raising), payload and error are mutually
exclusive, and a non-null error is the error of the last request issued. -/
theorem jql_run_ret_inv (getResp : Req → Except String JqlData) (fuel : Nat)
    (raw : Req) (p : Option Payload) (e : Option String) (reqs : List Req)
    (h : jql_run getResp fuel raw = (.ret p e, reqs)) :
    (p.isSome ↔ e.isNone) ∧
      (∀ s, e = some s →
        p = none ∧ ∃ r, reqs.getLast? = some r ∧ getResp r = .error s) := by
  simp only [jql_run] at h
  repeat' split at h
  all_goals first
    | exact jql_loop_ret_inv getResp _ _ _ _ _ _ _ _ _ _ h
    | (rw [Prod.mk.injEq] at h
       obtain ⟨h₁, h₂⟩ := h
       injection h₁
       done)
    | (rw [Prod.mk.injEq] at h
       obtain ⟨h₁, h₂⟩ := h
       injection h₁ with hp he
       subst hp
       subst he
       subst h₂
       refine ⟨by simp, ?_⟩
       intro s hs
       first
         | exact Option.noConfusion hs
         | (injection hs with hss
            subst hss
            refine ⟨rfl, ⟨_, ?_, by assumption⟩⟩
            first
              | exact List.getLast?_concat _
              | rfl))

/-- C4 (counterexample): on a non-200 response the Uptycs runner returns
the serialized empty dict as its payload next to a non-null error, so
payload and error are not mutually exclusive there. -/
theorem uptycs_payload_with_error_cex :
    uptycs_run_query (fun _ => ⟨500, ⟨none, none, none⟩⟩) "SELECT 1"
      = (some UpPayload.emptyDict, some "status_code 500\nfailed to connect")
    ∧ some UpPayload.emptyDict ≠ (none : Option UpPayload) :=
  ⟨rfl, fun hcontra => Option.noConfusion hcontra⟩

/-- C4 (amended): `Url.run_query` and `JiraJQL.run_query` return mutually
exclusive `(payload, error)` pairs, but `Uptycs.run_query` always returns a
non-null payload (`json_dumps` of `{}` on transport errors, of the
transformed data next to an embedded error message), so both slots can be
non-null on that backend. -/
theorem result_pair_protocol :
    (∀ (getResp : String → Except String HttpContent) (baseUrl : Option String)
        (query : String),
      (url_run_query getResp baseUrl query).1.isSome
        ↔ (url_run_query getResp baseUrl query).2.isNone)
    ∧ (∀ (getResp : Req → Except String JqlData) (fuel : Nat) (raw : Req)
        (p : Option Payload) (e : Option String) (reqs : List Req),
        jql_run getResp fuel raw = (.ret p e, reqs) → (p.isSome ↔ e.isNone))
    ∧ (∀ (post : String → UpResp) (query : String),
        (uptycs_run_query post query).1.isSome = true) := by
  refine ⟨?_, ?_, ?_⟩
  · intro getResp baseUrl query
    simp only [url_run_query]
    repeat' split
    all_goals simp
  · intro getResp fuel raw p e reqs h
    exact (jql_run_ret_inv getResp fuel raw p e reqs h).1
  · intro post query
    rfl

/-- Witness for `result_pair_protocol`: its JQL conjunct applied to a
concrete backend whose only response is a transport error. -/
theorem result_pair_protocol_witness :
    jql_run (fun _ => .error "boom") 0 []
      = (.ret none (some "boom"), [[("maxResults", BVal.int 1000)]])
    ∧ ((none : Option Payload).isSome ↔ (some "boom" : Option String).isNone) :=
  ⟨rfl,
    result_pair_protocol.2.1 (fun _ => .error "boom") 0 [] none (some "boom")
      [[("maxResults", BVal.int 1000)]] rfl⟩

/-- C5: if a backend/transport error occurs while fetching any page, the
call returns a null payload together with exactly the error of the last
request issued — nothing merged from earlier pages crosses the boundary. -/
theorem pagination_error_all_or_nothing
    (getResp : Req → Except String JqlData) (fuel : Nat) (raw : Req)
    (p : Option Payload) (s : String) (reqs : List Req)
    (h : jql_run getResp fuel raw = (.ret p (some s), reqs)) :
    p = none ∧ ∃ r, reqs.getLast? = some r ∧ getResp r = .error s :=
  (jql_run_ret_inv getResp fuel raw p (some s) reqs h).2 s rfl

/-- Witness for `pagination_error_all_or_nothing`: a backend that serves
one good page (total 250) and then fails; the run returns a null payload
with the transport error of the second request. -/
theorem pagination_error_all_or_nothing_witness :
    jql_run c5Backend 3 []
      = (.ret none (some "connection reset"),
         [[("maxResults", BVal.int 1000)],
          [("maxResults", BVal.int 1000), ("startAt", BVal.int 100)]])
    ∧ ((none : Option Payload) = none
      ∧ ∃ r,
        ([[("maxResults", BVal.int 1000)],
          [("maxResults", BVal.int 1000), ("startAt", BVal.int 100)]] : List Req).getLast?
          = some r
        ∧ c5Backend r = .error "connection reset") :=
  ⟨rfl, pagination_error_all_or_nothing c5Backend 3 [] none "connection reset" _ rfl⟩

set_option maxRecDepth 100000 in
/-- C6: against a backend reporting total 250 with page size 100, the
runner issues exactly 3 strictly sequential requests — the follow-ups at
offsets 0+100 = 100 and 100+100 = 200, computed from each page's echoed
`startAt + maxResults` — and the merged result holds exactly 250 rows with
a null error. -/
theorem pagination_three_pages_250_rows :
    (jql_run c6Backend 10 c6Query).2
      = [c6Req1, aset c6Req1 "startAt" (BVal.int 100),
         aset c6Req1 "startAt" (BVal.int 200)]
    ∧ (jql_run c6Backend 10 c6Query).1.okRowCount = some 250 :=
  ⟨rfl, rfl⟩

/-- `alookup` distributes over list append through `Option.or`. -/
theorem alookup_append (l₁ l₂ : List (String × α)) (k : String) :
    alookup (l₁ ++ l₂) k = (alookup l₁ k).or (alookup l₂ k) := by
  induction l₁ with
  | nil =>
      show alookup l₂ k = Option.or none (alookup l₂ k)
      cases alookup l₂ k <;> rfl
  | cons kv rest ih =>
      obtain ⟨k₂, v⟩ := kv
      simp only [List.cons_append, alookup]
      by_cases hk : k₂ = k
      · rw [if_pos hk, if_pos hk]; rfl
      · rw [if_neg hk, if_neg hk]; exact ih

/-- Looking up the key just assigned yields the assigned value. -/
theorem alookup_aset_self (l : List (String × α)) (k : String) (v : α) :
    alookup (aset l k v) k = some v := by
  induction l with
  | nil => simp [aset, alookup]
  | cons kv rest ih =>
      obtain ⟨k₂, v₂⟩ := kv
      simp only [aset]
      by_cases hk : k₂ = k
      · rw [if_pos hk]; simp [alookup, hk]
      · rw [if_neg hk]; simp only [alookup]; rw [if_neg hk]; exact ih

/-- Assignment to one key leaves lookups of other keys unchanged. -/
theorem alookup_aset_ne (l : List (String × α)) (k k₂ : String) (v : α)
    (h : k₂ ≠ k) : alookup (aset l k v) k₂ = alookup l k₂ := by
  induction l with
  | nil =>
      simp only [aset, alookup]
      rw [if_neg (fun hk => h hk.symm)]
  | cons kv rest ih =>
      obtain ⟨k₃, v₃⟩ := kv
      simp only [aset]
      by_cases hk : k₃ = k
      · rw [if_pos hk]
        simp only [alookup]
        rw [if_neg (by rw [hk]; exact fun hc => h hc.symm),
          if_neg (by rw [hk]; exact fun hc => h hc.symm)]
      · rw [if_neg hk]
        simp only [alookup]
        by_cases hk₂ : k₃ = k₂
        · rw [if_pos hk₂, if_pos hk₂]
        · rw [if_neg hk₂, if_neg hk₂]; exact ih

/-- `alookup` after mapping a function over the values. -/
theorem alookup_map_value (f : α → β) (l : List (String × α)) (k : String) :
    alookup (l.map (fun kv => (kv.1, f kv.2))) k = (alookup l k).map f := by
  induction l with
  | nil => rfl
  | cons kv rest ih =>
      obtain ⟨k₂, v⟩ := kv
      simp only [List.map_cons, alookup]
      by_cases hk : k₂ = k
      · rw [if_pos hk, if_pos hk]; rfl
      · rw [if_neg hk, if_neg hk]; exact ih

/-- Appending a non-empty suffix changes a string. -/
theorem string_ne_append_of_pos (s t : String) (ht : 0 < t.length) :
    s ≠ s ++ t := by
  intro h
  have hl := congrArg String.length h
  rw [String.length_append] at hl
  omega

/-- Appending different suffixes to the same string gives different
strings. -/
theorem string_append_ne_of_ne (s : String) {a b : String} (hab : a ≠ b) :
    s ++ a ≠ s ++ b := by
  intro h
  have hd := congrArg String.data h
  rw [String.data_append, String.data_append] at hd
  have h₂ := List.append_cancel_left hd
  apply hab
  cases a; cases b
  exact congrArg String.mk h₂

/-- Every column the projection-priority fold emits is either from the
accumulator or found in the input column list. -/
theorem reorder_fold_mem (cols : List RColumn) :
    ∀ (keys : List String) (acc : List RColumn) (c : RColumn),
      c ∈ keys.foldl (fun acc k =>
          match get_column_by_name cols k with
          | some col => acc ++ [col]
          | none => acc) acc →
      c ∈ acc ∨ c ∈ cols := by
  intro keys
  induction keys with
  | nil => intro acc c h; exact Or.inl h
  | cons k ks ih =>
      intro acc c h
      simp only [List.foldl_cons] at h
      cases hg : get_column_by_name cols k with
      | none => simp only [hg] at h; exact ih _ c h
      | some col =>
          simp only [hg] at h
          rcases ih _ c h with hacc | hcols
          · rcases List.mem_append.mp hacc with h₁ | h₂
            · exact Or.inl h₁
            · right
              have hcol : col ∈ cols :=
                List.mem_of_find?_eq_some (by simpa [get_column_by_name] using hg)
              have hc : c = col := by simpa using h₂
              rw [hc]; exact hcol
          · exact Or.inr hcols

/-- C3 (counterexample): reordering by the projection `{"a": 1}` removes
the normalized column `_id` that the projection does not mention, so the
`fields`-based ordering is not a pure permutation. -/
theorem fields_ordering_drops_column_cex :
    reorder_by_fields [("a", 1)]
        [⟨"_id", "_id", RType.integer⟩, ⟨"a", "a", RType.integer⟩]
      = [⟨"a", "a", RType.integer⟩]
    ∧ (⟨"_id", "_id", RType.integer⟩ : RColumn)
        ∈ [(⟨"_id", "_id", RType.integer⟩ : RColumn), ⟨"a", "a", RType.integer⟩]
    ∧ (⟨"_id", "_id", RType.integer⟩ : RColumn)
        ∉ [(⟨"a", "a", RType.integer⟩ : RColumn)] := by
  refine ⟨?_, by decide, by decide⟩
  simp [reorder_by_fields, sortFieldsByPriority, List.mergeSort_singleton,
    get_column_by_name, List.find?]

/-- C3 (amended): the alphabetical `sortColumns` ordering is a pure
permutation of the column list; the `fields` (projection-priority)
ordering never invents columns — every output column is from the
normalized list — but it drops normalized columns whose names are not
projection keys. -/
theorem column_ordering_bounds :
    (∀ (reverse : Bool) (cols : List RColumn),
      (sort_columns reverse cols).Perm cols)
    ∧ (∀ (f : List (String × Int)) (cols : List RColumn) (c : RColumn),
      c ∈ reorder_by_fields f cols → c ∈ cols) := by
  constructor
  · intro reverse cols
    exact List.mergeSort_perm cols _
  · intro f cols c h
    unfold reorder_by_fields at h
    rcases reorder_fold_mem cols _ _ _ h with h₁ | h₂
    · exact absurd h₁ (List.not_mem_nil c)
    · exact h₂

/-- Witness for `column_ordering_bounds`: the membership conjunct applied
at a singleton projection over a singleton column list. -/
theorem column_ordering_bounds_witness :
    (⟨"a", "a", RType.integer⟩ : RColumn)
        ∈ reorder_by_fields [("a", 1)] [⟨"a", "a", RType.integer⟩]
    ∧ (⟨"a", "a", RType.integer⟩ : RColumn)
        ∈ [(⟨"a", "a", RType.integer⟩ : RColumn)] := by
  have hr : reorder_by_fields [("a", 1)] [⟨"a", "a", RType.integer⟩]
      = [⟨"a", "a", RType.integer⟩] := by
    simp [reorder_by_fields, sortFieldsByPriority, List.mergeSort_singleton,
      get_column_by_name, List.find?]
  constructor
  · rw [hr]; exact List.mem_singleton.mpr rfl
  · exact column_ordering_bounds.2 [("a", 1)] [⟨"a", "a", RType.integer⟩] _
      (by rw [hr]; exact List.mem_singleton.mpr rfl)

/-- `isoRewrite` never turns a value into (or out of) a list. -/
theorem isoRewrite_isArr (v : BVal) : (isoRewrite v).isArr = v.isArr := by
  cases v
  case str s =>
      simp only [isoRewrite]
      cases isoDateMatch s <;> rfl
  all_goals rfl

/-- `parse_oids` raises its plain Exception on every non-list value. -/
theorem parse_oids_not_arr (v : BVal) (h : v.isArr = false) :
    parse_oids v = .error (.exception "$oids takes an array as input.") := by
  cases v
  case arr xs => simp [BVal.isArr] at h
  all_goals rfl

/-- C7 (counterexample): a query whose `$oids` marker wraps a non-array
makes the object hook raise a plain `Exception`; `MongoDB.run_query`
catches only `ValueError`, so the exception escapes instead of being
surfaced as a `(null payload, validation message)` pair. -/
theorem oids_non_array_uncaught_cex :
    mongo_compile (some (BVal.doc
        [("collection", BVal.str "c"), ("q", BVal.doc [("$oids", BVal.int 5)])]))
      = .error (.exception "$oids takes an array as input.")
    ∧ (mongo_compile (some (BVal.doc
        [("collection", BVal.str "c"),
         ("q", BVal.doc [("$oids", BVal.int 5)])]))).isOk = false :=
  ⟨rfl, rfl⟩

/-- C7 (amended): in a dict without a `$humanTime` marker, a `$oids` key
wrapping a non-array value makes the hook raise the plain Exception
"$oids takes an array as input." (which propagates out of `run_query`
uncaught, rather than being returned as a null payload with a validation
message), while a `$oids` key wrapping an array decodes each element
through `bson_object_hook({"$oid": oid})` into a backend ObjectId. -/
theorem oids_marker_behaviour :
    (∀ (d : List (String × BVal)) (v : BVal),
      alookup d "$humanTime" = none →
      alookup d "$oids" = some v →
      v.isArr = false →
      datetime_hook d = .error (.exception "$oids takes an array as input."))
    ∧ (∀ (d : List (String × BVal)) (xs : List BVal),
      alookup d "$humanTime" = none →
      alookup d "$oids" = some (.arr xs) →
      datetime_hook d
        = .ok (.arr (xs.map (fun oid => bson_object_hook [("$oid", oid)]))))
    ∧ (∀ (j : BVal) (m : String),
      applyHook j = .error (.exception m) →
      mongo_compile (some j) = .error (.exception m)) := by
  refine ⟨?_, ?_, ?_⟩
  · intro d v h₁ h₂ h₃
    have hiso := parse_oids_not_arr (isoRewrite v)
      (by rw [isoRewrite_isArr]; exact h₃)
    simp [datetime_hook, alookup_map_value, h₁, h₂, hiso, Except.map]
  · intro d xs h₁ h₂
    simp only [datetime_hook, alookup_map_value, h₁, h₂]
    simp [isoRewrite, parse_oids, Except.map]
  · intro j m h
    simp [mongo_compile, parse_query_json, h]

/-- Witness for `oids_marker_behaviour`: its conjuncts applied to the
concrete dicts `{"$oids": 5}` and `{"$oids": ["a"]}` and to a whole query
containing the former. -/
theorem oids_marker_behaviour_witness :
    (datetime_hook [("$oids", BVal.int 5)]
      = .error (.exception "$oids takes an array as input."))
    ∧ (datetime_hook [("$oids", BVal.arr [BVal.str "a"])]
      = .ok (.arr [BVal.oid (BVal.str "a")]))
    ∧ (mongo_compile (some (BVal.doc [("ids", BVal.doc [("$oids", BVal.int 5)])]))
      = .error (.exception "$oids takes an array as input.")) :=
  ⟨oids_marker_behaviour.1 [("$oids", BVal.int 5)] (BVal.int 5) rfl rfl rfl,
   oids_marker_behaviour.2.1 [("$oids", BVal.arr [BVal.str "a"])] [BVal.str "a"]
     rfl rfl,
   oids_marker_behaviour.2.2 (BVal.doc [("ids", BVal.doc [("$oids", BVal.int 5)])])
     "$oids takes an array as input." rfl⟩

/-- Lookup behaviour of the backwards-compatible fallback: `<out>_key`
and `<out>_name` reflect the `key`/`name` members; `<out>` is the
`watchCount` member when present, else the member named like the outer
field, else whatever the running result already held; every other key is
untouched. -/
theorem legacy_fallback_lookups (out k : String) (d : List (String × BVal))
    (r : RRow) :
    alookup (legacy_dict_fallback out k d r) (out ++ "_key")
      = (alookup d "key").or (alookup r (out ++ "_key"))
    ∧ alookup (legacy_dict_fallback out k d r) (out ++ "_name")
      = (alookup d "name").or (alookup r (out ++ "_name"))
    ∧ alookup (legacy_dict_fallback out k d r) out
      = (alookup d "watchCount").or ((alookup d k).or (alookup r out))
    ∧ ∀ k₂, k₂ ≠ out ++ "_key" → k₂ ≠ out ++ "_name" → k₂ ≠ out →
        alookup (legacy_dict_fallback out k d r) k₂ = alookup r k₂ := by
  have h₁ : out ≠ out ++ "_key" := string_ne_append_of_pos out "_key" (by decide)
  have h₂ : out ≠ out ++ "_name" := string_ne_append_of_pos out "_name" (by decide)
  have h₃ : out ++ "_key" ≠ out ++ "_name" := string_append_ne_of_ne out (by decide)
  unfold legacy_dict_fallback
  rcases hk : alookup d "key" with _ | kv <;>
    rcases hn : alookup d "name" with _ | nv <;>
      rcases hs : alookup d k with _ | sv <;>
        rcases hw : alookup d "watchCount" with _ | wv <;>
          refine ⟨?_, ?_, ?_, ?_⟩ <;>
            first
              | (intro k₂ hk₂a hk₂b hk₂c
                 simp [alookup_aset_ne, hk₂a, hk₂b, hk₂c])
              | simp [alookup_aset_self, alookup_aset_ne, h₁, h₂, h₃,
                  Ne.symm h₁, Ne.symm h₂, Ne.symm h₃, Option.or]

/-- C9: when the FieldMapping declares no member rule for field `k` and
the field's value is a nested object, `parse_issue` applies exactly the
legacy fallback: it emits at most `<out>_key` (from a `key` member),
`<out>_name` (from a `name` member) and `<out>` — equal to the `watchCount`
member when present, which overwrites the same-named-member value (last
rule wins), else to the member named like the outer field — and leaves
every other key of the running result unchanged. -/
theorem legacy_fallback_spec
    (fm : FieldMapping) (r : RRow) (k : String) (d : List (String × BVal))
    (hm : fm.get_dict_members k = []) :
    parse_issue_field fm r k (.doc d)
      = .ok (legacy_dict_fallback (fm.get_output_field_name k) k d r)
    ∧ alookup (legacy_dict_fallback (fm.get_output_field_name k) k d r)
        (fm.get_output_field_name k ++ "_key")
      = (alookup d "key").or (alookup r (fm.get_output_field_name k ++ "_key"))
    ∧ alookup (legacy_dict_fallback (fm.get_output_field_name k) k d r)
        (fm.get_output_field_name k ++ "_name")
      = (alookup d "name").or (alookup r (fm.get_output_field_name k ++ "_name"))
    ∧ alookup (legacy_dict_fallback (fm.get_output_field_name k) k d r)
        (fm.get_output_field_name k)
      = (alookup d "watchCount").or
          ((alookup d k).or (alookup r (fm.get_output_field_name k)))
    ∧ ∀ k₂, k₂ ≠ fm.get_output_field_name k ++ "_key" →
        k₂ ≠ fm.get_output_field_name k ++ "_name" →
        k₂ ≠ fm.get_output_field_name k →
        alookup (legacy_dict_fallback (fm.get_output_field_name k) k d r) k₂
          = alookup r k₂ := by
  refine ⟨?_, legacy_fallback_lookups _ k d r⟩
  simp [parse_issue_field, hm]

/-- Witness for `legacy_fallback_spec`: an unmapped nested object holding
both a same-named member (9) and a `watchCount` member (4); the output
column holds the `watchCount` value. -/
theorem legacy_fallback_spec_witness :
    (mkFieldMapping []).get_dict_members "watchers" = []
    ∧ alookup (legacy_dict_fallback
          ((mkFieldMapping []).get_output_field_name "watchers") "watchers"
          [("watchCount", BVal.int 4), ("watchers", BVal.int 9)] [])
        ((mkFieldMapping []).get_output_field_name "watchers")
      = some (BVal.int 4) :=
  ⟨rfl, by
    rw [(legacy_fallback_spec (mkFieldMapping []) [] "watchers"
        [("watchCount", BVal.int 4), ("watchers", BVal.int 9)] rfl).2.2.2.1]
    rfl⟩

/-- A name has a column in the list iff `_get_column_by_name` finds one. -/
theorem exists_name_iff_gcbn (cols : List RColumn) (n : String) :
    (∃ c ∈ cols, c.name = n) ↔ (get_column_by_name cols n).isSome = true := by
  rw [get_column_by_name, List.find?_isSome]
  constructor
  · rintro ⟨c, hc, hn⟩
    exact ⟨c, hc, by simp [hn]⟩
  · rintro ⟨c, hc, hn⟩
    exact ⟨c, hc, by simpa using hn⟩

/-- The inner (nested-dict) loop of `parse_results` only transforms the
column component like `colsAfter` over the prefixed inner pairs. -/
theorem inner_fold_cols (k : String) (inner : List (String × BVal)) :
    ∀ st : RRow × List RColumn,
      (inner.foldl
        (fun acc₂ ikv =>
          let column_name := k ++ "." ++ ikv.1
          let cols :=
            if (get_column_by_name acc₂.2 column_name).isSome then acc₂.2
            else acc₂.2 ++ [⟨column_name, column_name, typeTag ikv.2⟩]
          (aset acc₂.1 column_name ikv.2, cols)) st).2
      = colsAfter st.2 (inner.map (fun ikv => (k ++ "." ++ ikv.1, ikv.2))) := by
  induction inner with
  | nil => intro st; rfl
  | cons ikv rest ih =>
      intro st
      rw [List.foldl_cons, ih]
      rfl

/-- The per-document loop of `parse_results` transforms the column
component exactly like `colsAfter` over the document's flattened pairs. -/
theorem parse_results_fold_cols (row : MDoc) :
    ∀ st : RRow × List RColumn,
      (row.foldl
        (fun acc kv =>
          match kv.2 with
          | .doc inner =>
              inner.foldl
                (fun acc₂ ikv =>
                  let column_name := kv.1 ++ "." ++ ikv.1
                  let cols :=
                    if (get_column_by_name acc₂.2 column_name).isSome then acc₂.2
                    else acc₂.2 ++ [⟨column_name, column_name, typeTag ikv.2⟩]
                  (aset acc₂.1 column_name ikv.2, cols))
                acc
          | v =>
              let cols :=
                if (get_column_by_name acc.2 kv.1).isSome then acc.2
                else acc.2 ++ [⟨kv.1, kv.1, typeTag v⟩]
              (aset acc.1 kv.1 v, cols)) st).2
      = colsAfter st.2 (flatDoc row) := by
  induction row with
  | nil => intro st; rfl
  | cons kv rest ih =>
      intro st
      rw [List.foldl_cons, ih]
      obtain ⟨k, v⟩ := kv
      simp only [flatDoc, List.flatMap_cons]
      rw [show colsAfter st.2
          ((match (k, v).2 with
            | BVal.doc inner => inner.map (fun ikv => ((k, v).1 ++ "." ++ ikv.1, ikv.2))
            | v => [((k, v).1, v)])
            ++ rest.flatMap (fun kv =>
              match kv.2 with
              | BVal.doc inner => inner.map (fun ikv => (kv.1 ++ "." ++ ikv.1, ikv.2))
              | v => [(kv.1, v)]))
          = colsAfter (colsAfter st.2
              (match (k, v).2 with
               | BVal.doc inner => inner.map (fun ikv => ((k, v).1 ++ "." ++ ikv.1, ikv.2))
               | v => [((k, v).1, v)]))
              (rest.flatMap (fun kv =>
                match kv.2 with
                | BVal.doc inner => inner.map (fun ikv => (kv.1 ++ "." ++ ikv.1, ikv.2))
                | v => [(kv.1, v)]))
        from List.foldl_append _ _ _ _]
      congr 1
      cases v
      case doc inner => exact inner_fold_cols k inner st
      all_goals rfl

/-- `parse_results_step` transforms the column list like `colsAfter` over
the flattened document. -/
theorem parse_results_step_cols (columns : List RColumn) (row : MDoc) :
    (parse_results_step columns row).2 = colsAfter columns (flatDoc row) :=
  parse_results_fold_cols row ([], columns)

/-- `colsAfter` only ever appends: the starting columns are a prefix. -/
theorem colsAfter_prefix (pairs : List (String × BVal)) :
    ∀ cols : List RColumn, cols <+: colsAfter cols pairs := by
  induction pairs with
  | nil => intro cols; exact List.prefix_rfl
  | cons p ps ih =>
      intro cols
      have hstep : colsAfter cols (p :: ps)
          = colsAfter (if (get_column_by_name cols p.1).isSome then cols
              else cols ++ [⟨p.1, p.1, typeTag p.2⟩]) ps := rfl
      rw [hstep]
      refine List.IsPrefix.trans ?_ (ih _)
      by_cases hp : (get_column_by_name cols p.1).isSome
      · rw [if_pos hp]
      · rw [if_neg hp]
        exact List.prefix_append _ _

/-- The column components of `parse_results` coincide with
`colsAfterDocs` started from the empty column list. -/
theorem parse_results_snd (rs : List MDoc) :
    ∀ acc : List RRow × List RColumn,
      (rs.foldl
        (fun acc row =>
          let (pr, cols) := parse_results_step acc.2 row
          (acc.1 ++ [pr], cols)) acc).2
      = colsAfterDocs acc.2 rs := by
  induction rs with
  | nil => intro acc; rfl
  | cons r rest ih =>
      intro acc
      rw [List.foldl_cons, ih]
      rfl

theorem parse_results_cols (rs : List MDoc) :
    (parse_results rs).2 = colsAfterDocs [] rs :=
  parse_results_snd rs ([], [])

/-- Document-level prefix preservation. -/
theorem colsAfterDocs_prefix (docs : List MDoc) :
    ∀ cols : List RColumn, cols <+: colsAfterDocs cols docs := by
  induction docs with
  | nil => intro cols; exact List.prefix_rfl
  | cons r rest ih =>
      intro cols
      refine List.IsPrefix.trans ?_ (ih ((parse_results_step cols r).2))
      rw [parse_results_step_cols]
      exact colsAfter_prefix _ cols

/-- Invariant of the column accumulation: every column's type tag is the
`TYPES_MAP` tag of the value at the column's first appearance, and column
names correspond exactly to the flattened keys seen so far. -/
theorem colsAfter_invariant (pairs : List (String × BVal)) :
    ∀ (cols : List RColumn) (seen : List (String × BVal)),
      (∀ c ∈ cols, ∃ v, alookup seen c.name = some v ∧ c.type = typeTag v) →
      (∀ n : String, (∃ c ∈ cols, c.name = n) ↔ (alookup seen n).isSome = true) →
      (∀ c ∈ colsAfter cols pairs, ∃ v,
          alookup (seen ++ pairs) c.name = some v ∧ c.type = typeTag v)
        ∧ (∀ n : String, (∃ c ∈ colsAfter cols pairs, c.name = n)
            ↔ (alookup (seen ++ pairs) n).isSome = true) := by
  induction pairs with
  | nil =>
      intro cols seen h₁ h₂
      constructor
      · intro c hc
        simpa using h₁ c hc
      · intro n
        simpa using h₂ n
  | cons p ps ih =>
      intro cols seen h₁ h₂
      obtain ⟨n₀, v₀⟩ := p
      have hrw : seen ++ ((n₀, v₀) :: ps) = (seen ++ [(n₀, v₀)]) ++ ps := by simp
      rw [hrw]
      have hstep : colsAfter cols ((n₀, v₀) :: ps)
          = colsAfter (if (get_column_by_name cols n₀).isSome then cols
              else cols ++ [⟨n₀, n₀, typeTag v₀⟩]) ps := rfl
      rw [hstep]
      by_cases hp : (get_column_by_name cols n₀).isSome
      · rw [if_pos hp]
        apply ih
        · intro c hc
          obtain ⟨v, hv, ht⟩ := h₁ c hc
          exact ⟨v, by rw [alookup_append, hv]; rfl, ht⟩
        · intro n
          rw [h₂ n, alookup_append, Option.isSome_or]
          constructor
          · intro h
            simp [h]
          · intro h
            rcases Bool.or_eq_true_iff.mp (by simpa using h) with h' | h'
            · exact h'
            · -- the appended key is n, but that name is already a column,
              -- hence already a key of seen
              have hn : n₀ = n := by
                by_contra hne
                simp [alookup, hne] at h'
              have := (exists_name_iff_gcbn cols n₀).mpr hp
              rw [← hn]
              exact (h₂ n₀).mp this
      · rw [if_neg hp]
        apply ih
        · intro c hc
          rcases List.mem_append.mp hc with hold | hnew
          · obtain ⟨v, hv, ht⟩ := h₁ c hold
            exact ⟨v, by rw [alookup_append, hv]; rfl, ht⟩
          · have hc₀ : c = ⟨n₀, n₀, typeTag v₀⟩ := List.mem_singleton.mp hnew
            subst hc₀
            have hseen : alookup seen n₀ = none := by
              by_contra hne
              have hsome : (alookup seen n₀).isSome = true := by
                cases hh : alookup seen n₀ with
                | none => exact absurd hh hne
                | some _ => rfl
              have := (h₂ n₀).mpr hsome
              exact absurd ((exists_name_iff_gcbn cols n₀).mp this) (by simpa using hp)
            refine ⟨v₀, ?_, rfl⟩
            rw [alookup_append, hseen]
            simp [alookup]
        · intro n
          constructor
          · rintro ⟨c, hc, hn⟩
            rcases List.mem_append.mp hc with hold | hnew
            · have := (h₂ n).mp ⟨c, hold, hn⟩
              rw [alookup_append, Option.isSome_or, this]
              rfl
            · have hc₀ : c = ⟨n₀, n₀, typeTag v₀⟩ := List.mem_singleton.mp hnew
              subst hc₀
              simp only [RColumn.mk.injEq] at hn
              rw [alookup_append, Option.isSome_or]
              have : (alookup [(n₀, v₀)] n).isSome = true := by
                simp [alookup, hn]
              simp [this]
          · intro h
            rw [alookup_append, Option.isSome_or] at h
            rcases Bool.or_eq_true_iff.mp (by simpa using h) with h' | h'
            · obtain ⟨c, hc, hn⟩ := (h₂ n).mpr h'
              exact ⟨c, List.mem_append_left _ hc, hn⟩
            · have hn : n₀ = n := by
                by_contra hne
                simp [alookup, hne] at h'
              exact ⟨⟨n₀, n₀, typeTag v₀⟩,
                List.mem_append_right _ (List.mem_singleton.mpr rfl), hn⟩

/-- Document-level column invariant. -/
theorem colsAfterDocs_invariant (docs : List MDoc) :
    ∀ (cols : List RColumn) (seen : List (String × BVal)),
      (∀ c ∈ cols, ∃ v, alookup seen c.name = some v ∧ c.type = typeTag v) →
      (∀ n : String, (∃ c ∈ cols, c.name = n) ↔ (alookup seen n).isSome = true) →
      (∀ c ∈ colsAfterDocs cols docs, ∃ v,
          alookup (seen ++ docs.flatMap flatDoc) c.name = some v
            ∧ c.type = typeTag v)
        ∧ (∀ n : String, (∃ c ∈ colsAfterDocs cols docs, c.name = n)
            ↔ (alookup (seen ++ docs.flatMap flatDoc) n).isSome = true) := by
  induction docs with
  | nil =>
      intro cols seen h₁ h₂
      constructor
      · intro c hc
        simpa using h₁ c hc
      · intro n
        simpa using h₂ n
  | cons r rest ih =>
      intro cols seen h₁ h₂
      have h₃ := colsAfter_invariant (flatDoc r) cols seen h₁ h₂
      have hrw : seen ++ ((r :: rest).flatMap flatDoc)
          = (seen ++ flatDoc r) ++ rest.flatMap flatDoc := by
        simp [List.flatMap_cons]
      rw [hrw]
      have hstep : colsAfterDocs cols (r :: rest)
          = colsAfterDocs (colsAfter cols (flatDoc r)) rest := by
        show colsAfterDocs ((parse_results_step cols r).2) rest = _
        rw [parse_results_step_cols]
      rw [hstep]
      exact ih _ _ h₃.1 h₃.2

/-- C10: (i) processing more records only ever appends columns — the
column list of a prefix of the input is a prefix of the final column list,
so a column's name, position and type never change once created; (ii)
every column's type tag is the `TYPES_MAP` tag (default string) of the
value carried by the first flattened occurrence of its field; (iii) the
jql `add_column` is a no-op for an already-present column name, whatever
type is passed. -/
theorem columns_stable_once_created :
    (∀ (rs more : List MDoc), (parse_results rs).2 <+: (parse_results (rs ++ more)).2)
    ∧ (∀ (rs : List MDoc) (c : RColumn), c ∈ (parse_results rs).2 →
        ∃ v, alookup (rs.flatMap flatDoc) c.name = some v ∧ c.type = typeTag v)
    ∧ (∀ (rset : ResultSet) (col : String) (t : RType),
        rset.columns.any (fun c => c.name = col) = true →
        rset.add_column col t = rset) := by
  refine ⟨?_, ?_, ?_⟩
  · intro rs more
    rw [parse_results_cols, parse_results_cols]
    have hsplit : colsAfterDocs ([] : List RColumn) (rs ++ more)
        = colsAfterDocs (colsAfterDocs [] rs) more := List.foldl_append _ _ _ _
    rw [hsplit]
    exact colsAfterDocs_prefix more _
  · intro rs c hc
    rw [parse_results_cols] at hc
    have h := (colsAfterDocs_invariant rs [] []
      (fun c hc₂ => absurd hc₂ (List.not_mem_nil c))
      (by
        intro n
        constructor
        · rintro ⟨c, hc₂, _⟩
          exact absurd hc₂ (List.not_mem_nil c)
        · intro h
          simp [alookup] at h)).1 c hc
    simpa using h
  · intro rset col t h
    simp [ResultSet.add_column, h]

/-- Witness for `columns_stable_once_created`: the type-tag conjunct at a
single record `{"a": 1}` and the add_column no-op on a present column. -/
theorem columns_stable_once_created_witness :
    ((⟨"a", "a", RType.integer⟩ : RColumn) ∈ (parse_results [[("a", BVal.int 1)]]).2
    ∧ ∃ v, alookup ([[("a", BVal.int 1)]].flatMap flatDoc)
          (⟨"a", "a", RType.integer⟩ : RColumn).name = some v
        ∧ (⟨"a", "a", RType.integer⟩ : RColumn).type = typeTag v)
    ∧ ((⟨[⟨"a", "a", RType.string⟩], []⟩ : ResultSet).columns.any
        (fun c => c.name = "a") = true
    ∧ (⟨[⟨"a", "a", RType.string⟩], []⟩ : ResultSet).add_column "a" RType.integer
        = ⟨[⟨"a", "a", RType.string⟩], []⟩) := by
  have hmem : (⟨"a", "a", RType.integer⟩ : RColumn)
      ∈ (parse_results [[("a", BVal.int 1)]]).2 := by
    rw [show (parse_results [[("a", BVal.int 1)]]).2
        = [⟨"a", "a", RType.integer⟩] from rfl]
    exact List.mem_singleton.mpr rfl
  refine ⟨⟨hmem, columns_stable_once_created.2.1 _ _ hmem⟩, ⟨rfl, ?_⟩⟩
  exact columns_stable_once_created.2.2 ⟨[⟨"a", "a", RType.string⟩], []⟩ "a"
    RType.integer rfl

/-- C8: normalizing `[{"a":1}, {"a":2,"b":{"c":3}}]` produces exactly the
columns `["a", "b.c"]` in that order (both integer-typed here) and the rows
`[{"a":1}, {"a":2,"b.c":3}]` in input order. -/
theorem normalize_example_flattening :
    parse_results
        [[("a", BVal.int 1)], [("a", BVal.int 2), ("b", BVal.doc [("c", BVal.int 3)])]]
      = ([[("a", BVal.int 1)], [("a", BVal.int 2), ("b.c", BVal.int 3)]],
         [⟨"a", "a", RType.integer⟩, ⟨"b.c", "b.c", RType.integer⟩]) :=
  rfl

end Redash
